import Mathlib

/-!
Verification of the provenance-graph assembly and normalization engine of
gitcollab2prov.  The pipeline orchestration is embedded from
`src/gitlab2prov/service_layer/handlers.py` (`serialize`), the sub-model
pipelines from `src/gl2p/pipelines.py`.  The graph operations
(`operations.combine`, `operations.dedupe`, `operations.uncover_double_agents`,
`operations.pseudonymize`) are not part of the available sources and are
modelled from the specification, as indicated on each definition.
-/

namespace Gitcollab2Prov

/-- Kind tag of a provenance node: Entity, Activity or Agent (spec section 3). -/
inductive NodeKind where
  | entity
  | activity
  | agent
deriving DecidableEq, Repr

/-- A provenance node: qualified identifier, kind tag and an ordered
attribute mapping (attribute-name, value). -/
structure Node where
  id : String
  kind : NodeKind
  attrs : List (String × String)
deriving DecidableEq, Repr

/-- A directed typed relation between two node identifiers, carrying optional
attributes; relations have no identity beyond (type, source, target, attrs). -/
structure Relation where
  rtype : String
  source : String
  target : String
  attrs : List (String × String)
deriving DecidableEq, Repr

/-- A provenance graph: a list of node instances (duplicate identifiers may
coexist before deduplication) and a list of relations. -/
structure Graph where
  nodes : List Node
  relations : List Relation
deriving DecidableEq, Repr

attribute [ext] Node Relation Graph

/-- Look up the value of attribute key `k` in an attribute list, returning the
first (earliest) binding. -/
def lookupAttr (k : String) : List (String × String) → Option String
  | [] => none
  | p :: rest => if p.1 = k then some p.2 else lookupAttr k rest

/-- Keep, for every attribute key, only its first (earliest) binding; `seen`
accumulates the keys already emitted. -/
def dedupAttrsAux (seen : List String) : List (String × String) → List (String × String)
  | [] => []
  | p :: rest =>
    if p.1 ∈ seen then dedupAttrsAux seen rest
    else p :: dedupAttrsAux (p.1 :: seen) rest

/-- Union of an attribute sequence with first-seen-wins conflict resolution. -/
def dedupAttrs (l : List (String × String)) : List (String × String) :=
  dedupAttrsAux [] l

/-- Modelled from the spec: `operations.combine` (not under src/) — the Graph
Combiner unions all subgraphs into one graph, preserving every node and
relation exactly as produced (no loss, duplicates retained). -/
def combine (gs : List Graph) : Graph :=
  { nodes := (gs.map Graph.nodes).flatten, relations := (gs.map Graph.relations).flatten }

/-- The concatenation, in graph order, of the attribute lists of all node
instances carrying identifier `nid`. -/
def nodeInstancesAttrs (nid : String) (nodes : List Node) : List (String × String) :=
  ((nodes.filter (fun x => decide (x.id = nid))).map Node.attrs).flatten

/-- Merge a node with all later instances sharing its identifier: the merged
attribute mapping is the first-seen-wins union of all the instances'
attributes. -/
def mergeNode (n : Node) (rest : List Node) : Node :=
  { n with attrs := dedupAttrs (n.attrs ++ nodeInstancesAttrs n.id rest) }

/-- Modelled from the spec: the node half of `operations.dedupe` (not under
src/) — collapse all node instances sharing the same identifier into one node
whose attribute mapping is the union of all instances' attributes, first-seen
value winning on key conflicts. -/
def dedupeNodes : List Node → List Node
  | [] => []
  | n :: rest =>
    mergeNode n rest :: dedupeNodes (rest.filter (fun x => !decide (x.id = n.id)))
termination_by l => l.length
decreasing_by
  simp only [List.length_cons]
  exact Nat.lt_succ_of_le (List.length_filter_le _ _)

/-- Modelled from the spec: the relation half of `operations.dedupe` (not
under src/) — remove value-identical duplicate relations, keeping the first
occurrence and never altering relation identity otherwise. -/
def dedupeRels : List Relation → List Relation
  | [] => []
  | r :: rest =>
    r :: dedupeRels (rest.filter (fun s => !decide (s = r)))
termination_by l => l.length
decreasing_by
  simp only [List.length_cons]
  exact Nat.lt_succ_of_le (List.length_filter_le _ _)

/-- Modelled from the spec: `operations.dedupe` (not under src/) — the
Deduplicator collapses same-identifier node instances and removes
value-identical duplicate relations. -/
def dedupe (g : Graph) : Graph :=
  { nodes := dedupeNodes g.nodes, relations := dedupeRels g.relations }

/-- Modelled from the spec: the deterministic keyed pseudonym for an Agent's
display name, a pure function of the secret key and the original
(name, email) pair (`operations.pseudonymize` is not under src/). -/
def pseudonym (key nm em : String) : String :=
  "pseudonym:" ++ key ++ ":" ++ nm ++ "#" ++ em

/-- Modelled from the spec: the deterministic keyed pseudonym for an Agent's
email, a pure function of the secret key and the original (name, email)
pair. -/
def pseudonymEmail (key nm em : String) : String :=
  "pseudonym-email:" ++ key ++ ":" ++ nm ++ "#" ++ em

/-- Replace the values bound to the `name` and `email` attribute keys with the
keyed pseudonyms of the original (name, email) pair, leaving every other
attribute binding untouched. -/
def pseudonymizeAttrs (key nm em : String) (attrs : List (String × String)) :
    List (String × String) :=
  attrs.map (fun p =>
    if p.1 = "name" then (p.1, pseudonym key nm em)
    else if p.1 = "email" then (p.1, pseudonymEmail key nm em)
    else p)

/-- Modelled from the spec: pseudonymize one node — Agent nodes have their
name/email attribute values replaced by keyed pseudonyms of the original
(name, email) pair; non-Agent nodes are returned unchanged. -/
def pseudonymizeNode (key : String) (n : Node) : Node :=
  if n.kind = NodeKind.agent then
    let nm := (lookupAttr "name" n.attrs).getD ""
    let em := (lookupAttr "email" n.attrs).getD ""
    { n with attrs := pseudonymizeAttrs key nm em n.attrs }
  else n

/-- Modelled from the spec: the graph half of `operations.pseudonymize` (not
under src/) — every Agent node's identifying attributes are replaced by keyed
pseudonyms; identifiers, node kinds, non-Agent nodes and all relation
topology are left untouched. -/
def pseudonymizeGraph (key : String) (g : Graph) : Graph :=
  { nodes := g.nodes.map (pseudonymizeNode key), relations := g.relations }

/-- Modelled from the spec: `operations.pseudonymize` as invoked by the
serialize handler — pseudonymization requires the secret key; when the key is
absent the operation is fatal rather than silently falling back to a
non-deterministic key (spec section 7). -/
def pseudonymizeOp (key : Option String) (g : Graph) : Except String Graph :=
  match key with
  | none => Except.error "pseudonymization requested but no pseudonymization key supplied"
  | some k => Except.ok (pseudonymizeGraph k g)

/-- Does cluster `c` contain a member matching agent `a` under the pairwise
match function `m` (checked in both orientations)? -/
def clusterMatches (m : String → String → Bool) (a : String) (c : List String) : Bool :=
  c.any (fun y => m a y || m y a)

/-- Insert agent `a` into a cluster partition: all clusters containing a
member matching `a` are merged with `a` into one cluster; the remaining
clusters are kept unchanged. -/
def addAgent (m : String → String → Bool) (a : String) (cs : List (List String)) :
    List (List String) :=
  (a :: (cs.filter (fun c => clusterMatches m a c)).flatten)
    :: cs.filter (fun c => !clusterMatches m a c)

/-- Modelled from the spec: the clustering core of
`operations.uncover_double_agents` (not under src/) — union-find-style
clustering of agent identifiers over pairwise matches, guaranteeing
transitive closure of the match relation. -/
def buildClusters (m : String → String → Bool) : List String → List (List String) → List (List String)
  | [], cs => cs
  | a :: rest, cs => buildClusters m rest (addAgent m a cs)

/-- `x` and `y` are placed in one common cluster of the partition `cs`. -/
def together (x y : String) (cs : List (List String)) : Prop :=
  ∃ c ∈ cs, x ∈ c ∧ y ∈ c

/-- `x` occurs in some cluster of the partition `cs`. -/
def mentioned (x : String) (cs : List (List String)) : Prop :=
  ∃ c ∈ cs, x ∈ c

/-- Two clusters share no member. -/
def Disj (c d : List String) : Prop :=
  ∀ x, x ∈ c → x ∉ d

/-- Attribute `k` of the first Agent node carrying identifier `aid`. -/
def agentAttr (g : Graph) (aid k : String) : Option String :=
  match g.nodes.find? (fun n => decide (n.id = aid) && decide (n.kind = NodeKind.agent)) with
  | some n => lookupAttr k n.attrs
  | none => none

/-- Both optional values are present and equal. -/
def samePresent (x y : Option String) : Bool :=
  match x, y with
  | some a, some b => decide (a = b)
  | _, _ => false

/-- Modelled from the spec: the enumerated pairwise double-agent match
policies — exact-email, exact-name, email-or-name (spec section 4.4). -/
def policyMatch (g : Graph) (policy : String) (a b : String) : Bool :=
  if policy = "exact-email" then samePresent (agentAttr g a "email") (agentAttr g b "email")
  else if policy = "exact-name" then samePresent (agentAttr g a "name") (agentAttr g b "name")
  else samePresent (agentAttr g a "email") (agentAttr g b "email")
    || samePresent (agentAttr g a "name") (agentAttr g b "name")

/-- The enumerated double-agent match policy names (spec section 4.4). -/
def validPolicies : List String :=
  ["exact-email", "exact-name", "email-or-name"]

/-- Is `p` a known double-agent match policy name? -/
def validPolicy (p : String) : Bool :=
  validPolicies.contains p

/-- Remove duplicate strings, keeping the first occurrence of each. -/
def dedupStrings : List String → List String
  | [] => []
  | s :: rest => s :: dedupStrings (rest.filter (fun t => !decide (t = s)))
termination_by l => l.length
decreasing_by
  simp only [List.length_cons]
  exact Nat.lt_succ_of_le (List.length_filter_le _ _)

/-- The distinct identifiers of the Agent nodes of a graph, in first-seen
order. -/
def agentIds (g : Graph) : List String :=
  dedupStrings ((g.nodes.filter (fun n => decide (n.kind = NodeKind.agent))).map Node.id)

/-- The lexicographically smallest member of a cluster. -/
def minOf (c : List String) : String :=
  c.foldl (fun acc y => if y < acc then y else acc) (c.headD "")

/-- The canonical identifier chosen for `x`: the lexicographically smallest
member of the first cluster containing `x`, or `x` itself when `x` is in no
cluster. -/
def canonicalOf (cs : List (List String)) (x : String) : String :=
  match cs.find? (fun c => decide (x ∈ c)) with
  | some c => minOf c
  | none => x

/-- Modelled from the spec: `operations.uncover_double_agents` (not under
src/) — an unknown policy name is fatal; otherwise Agent identifiers are
clustered over the pairwise policy matches, every cluster member is rewritten
to the cluster's canonical identifier (recording the merged alias), and all
relation endpoints are rewritten accordingly. -/
def uncover_double_agents (g : Graph) (policy : String) : Except String Graph :=
  if validPolicy policy then
    let canon := canonicalOf (buildClusters (policyMatch g policy) (agentIds g) [])
    Except.ok
      { nodes := g.nodes.map (fun n =>
          if n.kind = NodeKind.agent then
            if canon n.id = n.id then n
            else { n with id := canon n.id, attrs := n.attrs ++ [("alias", n.id)] }
          else n),
        relations := g.relations.map (fun r =>
          { r with source := canon r.source, target := canon r.target }) }
  else Except.error ("unknown double agent match policy: " ++ policy)

/-- One stage of the serialize pipeline, used to record the order in which
`serialize` applies its operations. -/
inductive Stage where
  | build (i : Nat)
  | combineStage
  | dedupeStage
  | uncoverStage
  | pseudonymizeStage
deriving DecidableEq, Repr

/-- The configuration surface of the `Serialize` command consumed by the
handler: `uncover_double_agents` is the optional policy name (`none` when the
stage is disabled), `pseudonymize` the on/off flag
(src/gitlab2prov/service_layer/handlers.py). -/
structure SerializeCmd where
  uncover_double_agents : Option String
  pseudonymize : Bool
deriving DecidableEq, Repr

/-- Embedding of `serialize` (src/gitlab2prov/service_layer/handlers.py,
lines 33-57), instrumented with the list of stages executed, in order.  The
sub-model subgraphs are taken as input (one `Stage.build` per model); the
graph operations themselves are the spec-modelled definitions above; a
Python exception in an operation is modelled as `Except.error`, which aborts
the run so that no later stage executes. -/
def serializeRun (cmd : SerializeCmd) (key : Option String) (subgraphs : List Graph) :
    List Stage × Except String Graph :=
  let buildTrace := (List.range subgraphs.length).map Stage.build
  let deduped := dedupe (combine subgraphs)
  match cmd.uncover_double_agents with
  | none =>
    if cmd.pseudonymize then
      match pseudonymizeOp key deduped with
      | Except.error e =>
        (buildTrace ++ [Stage.combineStage, Stage.dedupeStage, Stage.pseudonymizeStage],
          Except.error e)
      | Except.ok g =>
        (buildTrace ++ [Stage.combineStage, Stage.dedupeStage, Stage.pseudonymizeStage],
          Except.ok g)
    else (buildTrace ++ [Stage.combineStage, Stage.dedupeStage], Except.ok deduped)
  | some policy =>
    match uncover_double_agents deduped policy with
    | Except.error e =>
      (buildTrace ++ [Stage.combineStage, Stage.dedupeStage, Stage.uncoverStage],
        Except.error e)
    | Except.ok g2 =>
      let g3 := dedupe g2
      if cmd.pseudonymize then
        match pseudonymizeOp key g3 with
        | Except.error e =>
          (buildTrace ++ [Stage.combineStage, Stage.dedupeStage, Stage.uncoverStage,
            Stage.dedupeStage, Stage.pseudonymizeStage], Except.error e)
        | Except.ok g4 =>
          (buildTrace ++ [Stage.combineStage, Stage.dedupeStage, Stage.uncoverStage,
            Stage.dedupeStage, Stage.pseudonymizeStage], Except.ok g4)
      else
        (buildTrace ++ [Stage.combineStage, Stage.dedupeStage, Stage.uncoverStage,
          Stage.dedupeStage], Except.ok g3)

/-- The canonical stage sequence the spec prescribes for a successful
serialize run with the given configuration. -/
def canonicalTrace (cmd : SerializeCmd) (numModels : Nat) : List Stage :=
  (List.range numModels).map Stage.build ++ [Stage.combineStage, Stage.dedupeStage]
    ++ (match cmd.uncover_double_agents with
        | some _ => [Stage.uncoverStage, Stage.dedupeStage]
        | none => [])
    ++ (if cmd.pseudonymize then [Stage.pseudonymizeStage] else [])

/-- The GitLab API client held by each pipeline (src/gl2p/pipelines.py); the
core never reads it when building a model. -/
structure GitLabAPIClient where
  base_url : String
  token : String
deriving DecidableEq, Repr

/-- The model classes instantiated by the four pipelines
(src/gl2p/pipelines.py): `CommitModel`, `CommitResourceModel`,
`ResourceModel`. -/
inductive ModelKind where
  | commitModel
  | commitResourceModel
  | resourceModel
deriving DecidableEq, Repr

/-- A commit model package produced by `CommitProcessor.run`
(src/gl2p/pipelines.py); its internals are opaque to the pipeline. -/
structure CommitModelPackage where
  payload : String
deriving DecidableEq, Repr

/-- A resource model package produced by the resource processors
(src/gl2p/pipelines.py); its internals are opaque to the pipeline. -/
structure ResourceModelPackage where
  payload : String
deriving DecidableEq, Repr

/-- A provenance model under construction: the class instantiated, the
project id it was constructed with, and the resources pushed so far, in push
order. -/
structure ProvModel (α : Type) where
  kind : ModelKind
  project_id : String
  pushed : List α
deriving DecidableEq, Repr

/-- A freshly constructed model instance: nothing pushed yet
(`CommitModel(self.project_id)` etc. in src/gl2p/pipelines.py). -/
def mkProvModel (α : Type) (k : ModelKind) (pid : String) : ProvModel α :=
  { kind := k, project_id := pid, pushed := [] }

/-- `model.push(resource)`: append one resource to the model. -/
def ProvModel.push {α : Type} (m : ProvModel α) (r : α) : ProvModel α :=
  { m with pushed := m.pushed ++ [r] }

/-- The populated PROV subgraph document returned by `model.document()`,
determined by the model class, the project id and the pushed resources. -/
structure ProvDocument (α : Type) where
  kind : ModelKind
  project_id : String
  resources : List α
deriving DecidableEq, Repr

/-- `model.document()` read off a model under construction. -/
def ProvModel.document {α : Type} (m : ProvModel α) : ProvDocument α :=
  { kind := m.kind, project_id := m.project_id, resources := m.pushed }

/-- Pipeline that fetches, processes and models git commits
(src/gl2p/pipelines.py, `CommitPipeline`). -/
structure CommitPipeline where
  project_id : String
  client : GitLabAPIClient
deriving DecidableEq, Repr

/-- `CommitPipeline.create_model` (src/gl2p/pipelines.py, lines 40-49):
construct a fresh `CommitModel`, push the resources in list order, return the
populated document. -/
def CommitPipeline.create_model (p : CommitPipeline)
    (resources : List CommitModelPackage) : ProvDocument CommitModelPackage :=
  (resources.foldl ProvModel.push
    (mkProvModel CommitModelPackage ModelKind.commitModel p.project_id)).document

/-- Pipeline that fetches, processes and models project commits
(src/gl2p/pipelines.py, `CommitResourcePipeline`). -/
structure CommitResourcePipeline where
  project_id : String
  client : GitLabAPIClient
deriving DecidableEq, Repr

/-- `CommitResourcePipeline.create_model` (src/gl2p/pipelines.py, lines
77-86): construct a fresh `CommitResourceModel`, push the resources in list
order, return the populated document. -/
def CommitResourcePipeline.create_model (p : CommitResourcePipeline)
    (resources : List ResourceModelPackage) : ProvDocument ResourceModelPackage :=
  (resources.foldl ProvModel.push
    (mkProvModel ResourceModelPackage ModelKind.commitResourceModel p.project_id)).document

/-- Pipeline that fetches, processes and models project issues
(src/gl2p/pipelines.py, `IssueResourcePipeline`). -/
structure IssueResourcePipeline where
  project_id : String
  client : GitLabAPIClient
deriving DecidableEq, Repr

/-- `IssueResourcePipeline.create_model` (src/gl2p/pipelines.py, lines
118-127): construct a fresh `ResourceModel`, push the resources in list
order, return the populated document. -/
def IssueResourcePipeline.create_model (p : IssueResourcePipeline)
    (resources : List ResourceModelPackage) : ProvDocument ResourceModelPackage :=
  (resources.foldl ProvModel.push
    (mkProvModel ResourceModelPackage ModelKind.resourceModel p.project_id)).document

/-- Pipeline that fetches, processes and models project merge requests
(src/gl2p/pipelines.py, `MergeRequestResourcePipeline`). -/
structure MergeRequestResourcePipeline where
  project_id : String
  client : GitLabAPIClient
deriving DecidableEq, Repr

/-- `MergeRequestResourcePipeline.create_model` (src/gl2p/pipelines.py, lines
159-168): construct a fresh `ResourceModel`, push the resources in list
order, return the populated document. -/
def MergeRequestResourcePipeline.create_model (p : MergeRequestResourcePipeline)
    (resources : List ResourceModelPackage) : ProvDocument ResourceModelPackage :=
  (resources.foldl ProvModel.push
    (mkProvModel ResourceModelPackage ModelKind.resourceModel p.project_id)).document

/-- Example: a small subgraph with one agent, one entity and one relation. -/
def exGraphSmall : Graph :=
  { nodes :=
      [ { id := "agent:alice", kind := NodeKind.agent,
          attrs := [("name", "Alice"), ("email", "alice@example.com")] },
        { id := "commit:c1", kind := NodeKind.entity, attrs := [("title", "c1")] } ],
    relations :=
      [ { rtype := "wasAttributedTo", source := "commit:c1", target := "agent:alice",
          attrs := [] } ] }

/-- Example: an agent node instance carrying a name only. -/
def exNodeDupA : Node :=
  { id := "agent:alice", kind := NodeKind.agent, attrs := [("name", "Alice")] }

/-- Example: a second instance of the same identifier carrying an email and a
conflicting name. -/
def exNodeDupB : Node :=
  { id := "agent:alice", kind := NodeKind.agent,
    attrs := [("email", "alice@example.com"), ("name", "Alice A.")] }

/-- Example: a graph in which two sub-models emitted the same agent
identifier with different attributes. -/
def exGraphDup : Graph :=
  { nodes := [exNodeDupA, exNodeDupB], relations := [] }

/-- Example: a graph containing no Agent node at all. -/
def exGraphNoAgents : Graph :=
  { nodes := [ { id := "commit:c1", kind := NodeKind.entity, attrs := [("title", "c1")] } ],
    relations :=
      [ { rtype := "wasGeneratedBy", source := "commit:c1", target := "activity:a1",
          attrs := [] } ] }

/-- Example: an agent node as emitted in one run. -/
def exAgentRunOne : Node :=
  { id := "agent:alice", kind := NodeKind.agent,
    attrs := [("name", "Alice"), ("email", "alice@example.com")] }

/-- Example: an agent node for the same person as emitted in a second run,
with a different identifier, attribute order and extra attribute. -/
def exAgentRunTwo : Node :=
  { id := "user:alice", kind := NodeKind.agent,
    attrs := [("role", "human"), ("email", "alice@example.com"), ("name", "Alice")] }

/-- Example: a pairwise match function under which alice matches bob and bob
matches carol, while alice and carol do not directly match. -/
def exMatch (x y : String) : Bool :=
  decide ((x, y) ∈ [("alice", "bob"), ("bob", "carol")])

/-- Example: a serialize command with both optional stages enabled and a
valid policy. -/
def exCmdBoth : SerializeCmd :=
  { uncover_double_agents := some "exact-email", pseudonymize := true }

/-- Example: a serialize command requesting pseudonymization only. -/
def exCmdPseudo : SerializeCmd :=
  { uncover_double_agents := none, pseudonymize := true }

/-- Example: a serialize command configured with an unknown double-agent
match policy name. -/
def exCmdBogus : SerializeCmd :=
  { uncover_double_agents := some "bogus", pseudonymize := false }

/-- Example: a serialize command with an unknown policy name and
pseudonymization also requested. -/
def exCmdBogusPseudo : SerializeCmd :=
  { uncover_double_agents := some "bogus", pseudonymize := true }

theorem lookupAttr_dedupAttrsAux (l : List (String × String)) (seen : List String) (k : String) :
    lookupAttr k (dedupAttrsAux seen l) = if k ∈ seen then none else lookupAttr k l := by
  induction l generalizing seen with
  | nil => simp [dedupAttrsAux, lookupAttr]
  | cons p rest ih =>
    by_cases hp : p.1 ∈ seen
    · rw [dedupAttrsAux, if_pos hp, ih]
      by_cases hk : k ∈ seen
      · simp [hk]
      · have hpk : ¬ p.1 = k := fun h => hk (h ▸ hp)
        simp [hk, lookupAttr, hpk]
    · rw [dedupAttrsAux, if_neg hp]
      by_cases hpk : p.1 = k
      · subst hpk
        simp [lookupAttr, hp]
      · rw [lookupAttr, if_neg hpk, ih]
        by_cases hk : k ∈ seen
        · simp [hk, lookupAttr, hpk]
        · have : ¬ k ∈ p.1 :: seen := by
            simp only [List.mem_cons]
            rintro (h | h)
            · exact hpk h.symm
            · exact hk h
          simp [hk, this, lookupAttr, hpk]

theorem dedupAttrsAux_keys (l : List (String × String)) (seen : List String) :
    (∀ q ∈ dedupAttrsAux seen l, q.1 ∉ seen) ∧
      ((dedupAttrsAux seen l).map Prod.fst).Nodup := by
  induction l generalizing seen with
  | nil => simp [dedupAttrsAux]
  | cons p rest ih =>
    by_cases hp : p.1 ∈ seen
    · rw [dedupAttrsAux, if_pos hp]; exact ih seen
    · rw [dedupAttrsAux, if_neg hp]
      obtain ⟨h1, h2⟩ := ih (p.1 :: seen)
      refine ⟨?_, ?_⟩
      · intro q hq
        rcases List.mem_cons.mp hq with h | h
        · rw [h]; exact hp
        · intro hin
          exact (h1 q h) (List.mem_cons_of_mem _ hin)
      · simp only [List.map_cons, List.nodup_cons]
        refine ⟨?_, h2⟩
        intro hmem
        obtain ⟨q, hq, hq1⟩ := List.mem_map.mp hmem
        exact (h1 q hq) (hq1 ▸ List.mem_cons_self _ _)

theorem dedupAttrsAux_eq_self (l : List (String × String)) (seen : List String)
    (hnd : (l.map Prod.fst).Nodup) (hs : ∀ p ∈ l, p.1 ∉ seen) :
    dedupAttrsAux seen l = l := by
  induction l generalizing seen with
  | nil => rfl
  | cons p rest ih =>
    have hp : p.1 ∉ seen := hs p (List.mem_cons_self _ _)
    rw [dedupAttrsAux, if_neg hp]
    have hnd1 : p.1 ∉ rest.map Prod.fst := (List.nodup_cons.mp (by simpa using hnd)).1
    have hnd2 : (rest.map Prod.fst).Nodup := (List.nodup_cons.mp (by simpa using hnd)).2
    congr 1
    apply ih _ hnd2
    intro q hq
    simp only [List.mem_cons]
    rintro (h | h)
    · exact hnd1 (h ▸ List.mem_map_of_mem Prod.fst hq)
    · exact hs q (List.mem_cons_of_mem _ hq) h

theorem dedupAttrs_idem (l : List (String × String)) :
    dedupAttrs (dedupAttrs l) = dedupAttrs l := by
  unfold dedupAttrs
  apply dedupAttrsAux_eq_self
  · exact (dedupAttrsAux_keys l []).2
  · simp

theorem lookupAttr_dedupAttrs (l : List (String × String)) (k : String) :
    lookupAttr k (dedupAttrs l) = lookupAttr k l := by
  unfold dedupAttrs
  rw [lookupAttr_dedupAttrsAux]
  simp

theorem lookupAttr_isSome_of_mem {k v : String} {l : List (String × String)}
    (h : (k, v) ∈ l) : (lookupAttr k l).isSome = true := by
  induction l with
  | nil => cases h
  | cons p rest ih =>
    rw [lookupAttr]
    by_cases hp : p.1 = k
    · simp [hp]
    · rcases List.mem_cons.mp h with h1 | h1
      · exact absurd (by rw [← h1]) hp
      · simp [hp, ih h1]

theorem mergeNode_id (n : Node) (rest : List Node) : (mergeNode n rest).id = n.id := rfl

theorem mergeNode_kind (n : Node) (rest : List Node) : (mergeNode n rest).kind = n.kind := rfl

theorem mergeNode_attrs (n : Node) (rest : List Node) :
    (mergeNode n rest).attrs = dedupAttrs (n.attrs ++ nodeInstancesAttrs n.id rest) := rfl

theorem dedupeNodes_mem (l : List Node) :
    ∀ m ∈ dedupeNodes l, ∃ n ∈ l, m.id = n.id := by
  induction l using dedupeNodes.induct with
  | case1 => intro m hm; simp [dedupeNodes] at hm
  | case2 n rest ih =>
    intro m hm
    rw [dedupeNodes] at hm
    rcases List.mem_cons.mp hm with h1 | h1
    · exact ⟨n, List.mem_cons_self _ _, by rw [h1, mergeNode_id]⟩
    · obtain ⟨n0, hn0, hid⟩ := ih m h1
      exact ⟨n0, List.mem_cons_of_mem _ (List.mem_of_mem_filter hn0), hid⟩

theorem dedupeNodes_ids_nodup (l : List Node) :
    ((dedupeNodes l).map Node.id).Nodup := by
  induction l using dedupeNodes.induct with
  | case1 => simp [dedupeNodes]
  | case2 n rest ih =>
    rw [dedupeNodes]
    simp only [List.map_cons, List.nodup_cons, mergeNode_id]
    refine ⟨?_, ih⟩
    intro hmem
    obtain ⟨m, hm, hmid⟩ := List.mem_map.mp hmem
    obtain ⟨n0, hn0, hid⟩ := dedupeNodes_mem _ m hm
    have := List.of_mem_filter hn0
    simp only [Bool.not_eq_true', decide_eq_false_iff_not] at this
    exact this (by rw [← hid, hmid])

theorem nodeInstancesAttrs_cons_self (n : Node) (rest : List Node) :
    nodeInstancesAttrs n.id (n :: rest) = n.attrs ++ nodeInstancesAttrs n.id rest := by
  unfold nodeInstancesAttrs
  rw [List.filter_cons_of_pos (by simp)]
  simp

theorem nodeInstancesAttrs_cons_other (n : Node) (rest : List Node) (nid : String)
    (h : ¬ n.id = nid) :
    nodeInstancesAttrs nid (n :: rest) = nodeInstancesAttrs nid rest := by
  unfold nodeInstancesAttrs
  rw [List.filter_cons_of_neg (by simp [h])]

theorem nodeInstancesAttrs_filter_other (rest : List Node) (nid nidB : String)
    (h : ¬ nid = nidB) :
    nodeInstancesAttrs nid (rest.filter (fun x => !decide (x.id = nidB))) =
      nodeInstancesAttrs nid rest := by
  unfold nodeInstancesAttrs
  rw [List.filter_filter]
  have hf : List.filter (fun a => decide (a.id = nid) && !decide (a.id = nidB)) rest
      = List.filter (fun x => decide (x.id = nid)) rest := by
    apply List.filter_congr
    intro x _
    by_cases hx : x.id = nid
    · have hxb : ¬ x.id = nidB := fun hc => h (by rw [← hx, hc])
      simp [hx, hxb, h]
    · simp [hx]
  rw [hf]

theorem dedupeNodes_attrs (l : List Node) :
    ∀ nid, (∃ n0 ∈ l, n0.id = nid) →
      ∃ m ∈ dedupeNodes l, m.id = nid ∧
        m.attrs = dedupAttrs (nodeInstancesAttrs nid l) := by
  induction l using dedupeNodes.induct with
  | case1 => rintro nid ⟨n0, hn0, _⟩; cases hn0
  | case2 n rest ih =>
    rintro nid ⟨n0, hn0, hid⟩
    by_cases hnid : nid = n.id
    · subst hnid
      refine ⟨mergeNode n rest, by rw [dedupeNodes]; exact List.mem_cons_self _ _, mergeNode_id n rest, ?_⟩
      rw [nodeInstancesAttrs_cons_self]
      rfl
    · have hn0rest : n0 ∈ rest := by
        rcases List.mem_cons.mp hn0 with h | h
        · exact absurd (h ▸ hid).symm hnid
        · exact h
      have hn0f : n0 ∈ rest.filter (fun x => !decide (x.id = n.id)) := by
        rw [List.mem_filter]
        refine ⟨hn0rest, ?_⟩
        simp only [Bool.not_eq_eq_eq_not, Bool.not_true, decide_eq_false_iff_not]
        rw [hid]; exact hnid
      obtain ⟨m, hm, hmid, hmattrs⟩ := ih nid ⟨n0, hn0f, hid⟩
      refine ⟨m, by rw [dedupeNodes]; exact List.mem_cons_of_mem _ hm, hmid, ?_⟩
      rw [hmattrs, nodeInstancesAttrs_filter_other rest nid n.id hnid,
        nodeInstancesAttrs_cons_other n rest nid (fun h => hnid h.symm)]

theorem dedupeNodes_idem (l : List Node) :
    dedupeNodes (dedupeNodes l) = dedupeNodes l := by
  induction l using dedupeNodes.induct with
  | case1 => simp [dedupeNodes]
  | case2 n rest ih =>
    have hT : ∀ m ∈ dedupeNodes (rest.filter (fun x => !decide (x.id = n.id))),
        ¬ m.id = n.id := by
      intro m hm
      obtain ⟨n0, hn0, hid⟩ := dedupeNodes_mem _ m hm
      have := List.of_mem_filter hn0
      simp only [Bool.not_eq_eq_eq_not, Bool.not_true, decide_eq_false_iff_not] at this
      intro hc
      exact this (hid ▸ hc)
    have hinst : nodeInstancesAttrs n.id
        (dedupeNodes (rest.filter (fun x => !decide (x.id = n.id)))) = [] := by
      unfold nodeInstancesAttrs
      rw [List.filter_eq_nil_iff.mpr]
      · rfl
      · intro m hm
        simp only [decide_eq_true_eq]
        exact hT m hm
    rw [dedupeNodes, dedupeNodes]
    congr 1
    · ext1
      · rw [mergeNode_id, mergeNode_id]
      · rw [mergeNode_kind, mergeNode_kind]
      · rw [mergeNode_attrs, mergeNode_id, hinst, List.append_nil, mergeNode_attrs,
          dedupAttrs_idem]
    · rw [List.filter_eq_self.mpr]
      · exact ih
      · intro m hm
        simp only [Bool.not_eq_eq_eq_not, Bool.not_true, decide_eq_false_iff_not, mergeNode_id]
        exact hT m hm

theorem dedupeRels_mem (l : List Relation) : ∀ r ∈ dedupeRels l, r ∈ l := by
  induction l using dedupeRels.induct with
  | case1 => intro r hr; simp [dedupeRels] at hr
  | case2 r rest ih =>
    intro s hs
    rw [dedupeRels] at hs
    rcases List.mem_cons.mp hs with h | h
    · rw [h]; exact List.mem_cons_self _ _
    · exact List.mem_cons_of_mem _ (List.mem_of_mem_filter (ih s h))

theorem dedupeRels_idem (l : List Relation) :
    dedupeRels (dedupeRels l) = dedupeRels l := by
  induction l using dedupeRels.induct with
  | case1 => simp [dedupeRels]
  | case2 r rest ih =>
    have hT : ∀ s ∈ dedupeRels (rest.filter (fun s => !decide (s = r))), ¬ s = r := by
      intro s hs
      have := List.of_mem_filter (dedupeRels_mem _ s hs)
      simpa using this
    rw [dedupeRels, dedupeRels]
    congr 1
    rw [List.filter_eq_self.mpr]
    · exact ih
    · intro s hs
      simpa using hT s hs

/-- C2: the dedupe operation is idempotent — for every graph G,
dedupe(dedupe(G)) equals dedupe(G). -/
theorem dedupe_idempotent (g : Graph) : dedupe (dedupe g) = dedupe g := by
  unfold dedupe
  simp only [Graph.mk.injEq]
  exact ⟨dedupeNodes_idem g.nodes, dedupeRels_idem g.relations⟩

/-- C3: combine is order-independent — combine([A, B]) and combine([B, A])
yield the same nodes and relations up to order (a permutation, hence the same
set), and combine preserves every node and relation of every input subgraph
without loss. -/
theorem combine_commutative_lossless (A B : Graph) (gs : List Graph) (g : Graph)
    (hg : g ∈ gs) :
    ((combine [A, B]).nodes.Perm (combine [B, A]).nodes
      ∧ (combine [A, B]).relations.Perm (combine [B, A]).relations)
    ∧ ((∀ n ∈ g.nodes, n ∈ (combine gs).nodes)
      ∧ (∀ r ∈ g.relations, r ∈ (combine gs).relations)) := by
  refine ⟨⟨?_, ?_⟩, ?_, ?_⟩
  · simp only [combine, List.map_cons, List.map_nil, List.flatten_cons, List.flatten_nil,
      List.append_nil]
    exact List.perm_append_comm
  · simp only [combine, List.map_cons, List.map_nil, List.flatten_cons, List.flatten_nil,
      List.append_nil]
    exact List.perm_append_comm
  · intro n hn
    simp only [combine, List.mem_flatten]
    exact ⟨g.nodes, List.mem_map_of_mem Graph.nodes hg, hn⟩
  · intro r hr
    simp only [combine, List.mem_flatten]
    exact ⟨g.relations, List.mem_map_of_mem Graph.relations hg, hr⟩

/-- Witness for C3 at concrete graphs. -/
theorem combine_commutative_lossless_witness :
    exGraphSmall ∈ [exGraphSmall, exGraphDup] ∧
    (((combine [exGraphDup, exGraphNoAgents]).nodes.Perm
        (combine [exGraphNoAgents, exGraphDup]).nodes
      ∧ (combine [exGraphDup, exGraphNoAgents]).relations.Perm
        (combine [exGraphNoAgents, exGraphDup]).relations)
    ∧ ((∀ n ∈ exGraphSmall.nodes, n ∈ (combine [exGraphSmall, exGraphDup]).nodes)
      ∧ (∀ r ∈ exGraphSmall.relations, r ∈ (combine [exGraphSmall, exGraphDup]).relations))) :=
  ⟨by decide,
    combine_commutative_lossless exGraphDup exGraphNoAgents [exGraphSmall, exGraphDup]
      exGraphSmall (by decide)⟩

/-- C4: dedupe collapses all node instances sharing an identifier into a
single node (identifiers become unique), the merged node's attribute lookup
agrees with first-seen-wins lookup over the concatenation of all instances'
attributes, and every key present on any pre-merge instance has a value on
the merged node. -/
theorem dedupe_merges_attributes (g : Graph) (n : Node) (k v : String)
    (hn : n ∈ g.nodes) (hkv : (k, v) ∈ n.attrs) :
    ((dedupe g).nodes.map Node.id).Nodup ∧
    ∃ m ∈ (dedupe g).nodes, m.id = n.id ∧
      lookupAttr k m.attrs = lookupAttr k (nodeInstancesAttrs n.id g.nodes) ∧
      (lookupAttr k m.attrs).isSome = true := by
  refine ⟨dedupeNodes_ids_nodup g.nodes, ?_⟩
  obtain ⟨m, hm, hmid, hmattrs⟩ := dedupeNodes_attrs g.nodes n.id ⟨n, hn, rfl⟩
  refine ⟨m, hm, hmid, ?_, ?_⟩
  · rw [hmattrs, lookupAttr_dedupAttrs]
  · rw [hmattrs, lookupAttr_dedupAttrs]
    apply lookupAttr_isSome_of_mem (v := v)
    unfold nodeInstancesAttrs
    rw [List.mem_flatten]
    refine ⟨n.attrs, ?_, hkv⟩
    apply List.mem_map_of_mem
    rw [List.mem_filter]
    exact ⟨hn, by simp⟩

/-- Witness for C4 at a concrete graph in which two sub-models emitted the
same agent identifier. -/
theorem dedupe_merges_attributes_witness :
    (exNodeDupA ∈ exGraphDup.nodes ∧ ("name", "Alice") ∈ exNodeDupA.attrs) ∧
    (((dedupe exGraphDup).nodes.map Node.id).Nodup ∧
      ∃ m ∈ (dedupe exGraphDup).nodes, m.id = exNodeDupA.id ∧
        lookupAttr "name" m.attrs
          = lookupAttr "name" (nodeInstancesAttrs exNodeDupA.id exGraphDup.nodes) ∧
        (lookupAttr "name" m.attrs).isSome = true) :=
  ⟨⟨by decide, by decide⟩,
    dedupe_merges_attributes exGraphDup exNodeDupA "name" "Alice" (by decide) (by decide)⟩

theorem map_id_on {α : Type} (f : α → α) (l : List α) (h : ∀ a ∈ l, f a = a) :
    l.map f = l := by
  induction l with
  | nil => rfl
  | cons a rest ih =>
    simp only [List.map_cons]
    rw [h a (List.mem_cons_self _ _), ih (fun x hx => h x (List.mem_cons_of_mem _ hx))]

theorem pseudonymizeNode_id (key : String) (n : Node) :
    (pseudonymizeNode key n).id = n.id := by
  by_cases h : n.kind = NodeKind.agent <;> simp [pseudonymizeNode, h]

theorem pseudonymizeNode_kind (key : String) (n : Node) :
    (pseudonymizeNode key n).kind = n.kind := by
  by_cases h : n.kind = NodeKind.agent <;> simp [pseudonymizeNode, h]

theorem pseudonymizeNode_nonagent (key : String) (n : Node)
    (h : ¬ n.kind = NodeKind.agent) : pseudonymizeNode key n = n := by
  simp [pseudonymizeNode, h]

theorem pseudonymizeNode_other_attrs (key : String) (n : Node) (p : String × String)
    (hp : p ∈ n.attrs) (h1 : ¬ p.1 = "name") (h2 : ¬ p.1 = "email") :
    p ∈ (pseudonymizeNode key n).attrs := by
  by_cases h : n.kind = NodeKind.agent
  · simp only [pseudonymizeNode, h, if_pos]
    apply List.mem_map.mpr
    exact ⟨p, hp, by simp [h1, h2]⟩
  · rw [pseudonymizeNode_nonagent key n h]
    exact hp

theorem lookupAttr_pseudonymizeAttrs_name (key nm em : String)
    (l : List (String × String)) :
    lookupAttr "name" (pseudonymizeAttrs key nm em l)
      = (lookupAttr "name" l).map (fun _ => pseudonym key nm em) := by
  induction l with
  | nil => rfl
  | cons p rest ih =>
    by_cases h1 : p.1 = "name"
    · simp [pseudonymizeAttrs, lookupAttr, h1]
    · by_cases h2 : p.1 = "email"
      · simpa [pseudonymizeAttrs, lookupAttr, h1, h2] using ih
      · simpa [pseudonymizeAttrs, lookupAttr, h1, h2] using ih

theorem lookupAttr_pseudonymizeAttrs_email (key nm em : String)
    (l : List (String × String)) :
    lookupAttr "email" (pseudonymizeAttrs key nm em l)
      = (lookupAttr "email" l).map (fun _ => pseudonymEmail key nm em) := by
  induction l with
  | nil => rfl
  | cons p rest ih =>
    by_cases h1 : p.1 = "name"
    · simpa [pseudonymizeAttrs, lookupAttr, h1] using ih
    · by_cases h2 : p.1 = "email"
      · simp [pseudonymizeAttrs, lookupAttr, h1, h2]
      · simpa [pseudonymizeAttrs, lookupAttr, h1, h2] using ih

/-- C5: pseudonymize preserves every node identifier, every node kind and the
full relation topology; non-Agent nodes are untouched, attributes other than
name/email survive on the same node, and a graph with no Agent nodes is
returned unchanged rather than causing an error. -/
theorem pseudonymize_preserves_structure (key : String) (g : Graph) :
    (pseudonymizeGraph key g).relations = g.relations
    ∧ (pseudonymizeGraph key g).nodes.map Node.id = g.nodes.map Node.id
    ∧ (pseudonymizeGraph key g).nodes.map Node.kind = g.nodes.map Node.kind
    ∧ (∀ n ∈ g.nodes, ¬ n.kind = NodeKind.agent → n ∈ (pseudonymizeGraph key g).nodes)
    ∧ (∀ n ∈ g.nodes, ∀ p ∈ n.attrs, ¬ p.1 = "name" → ¬ p.1 = "email" →
        ∃ m ∈ (pseudonymizeGraph key g).nodes, m.id = n.id ∧ p ∈ m.attrs)
    ∧ ((∀ n ∈ g.nodes, ¬ n.kind = NodeKind.agent) → pseudonymizeGraph key g = g) := by
  refine ⟨rfl, ?_, ?_, ?_, ?_, ?_⟩
  · show (g.nodes.map (pseudonymizeNode key)).map Node.id = g.nodes.map Node.id
    rw [List.map_map]
    exact List.map_congr_left (fun n _ => pseudonymizeNode_id key n)
  · show (g.nodes.map (pseudonymizeNode key)).map Node.kind = g.nodes.map Node.kind
    rw [List.map_map]
    exact List.map_congr_left (fun n _ => pseudonymizeNode_kind key n)
  · intro n hn h
    show n ∈ g.nodes.map (pseudonymizeNode key)
    exact List.mem_map.mpr ⟨n, hn, pseudonymizeNode_nonagent key n h⟩
  · intro n hn p hp h1 h2
    refine ⟨pseudonymizeNode key n, List.mem_map_of_mem _ hn, pseudonymizeNode_id key n, ?_⟩
    exact pseudonymizeNode_other_attrs key n p hp h1 h2
  · intro h
    unfold pseudonymizeGraph
    rw [map_id_on (pseudonymizeNode key) g.nodes
      (fun n hn => pseudonymizeNode_nonagent key n (h n hn))]

/-- Witness for C5 at a concrete graph without Agent nodes. -/
theorem pseudonymize_preserves_structure_witness :
    (pseudonymizeGraph "key" exGraphNoAgents).relations = exGraphNoAgents.relations
    ∧ pseudonymizeGraph "key" exGraphNoAgents = exGraphNoAgents :=
  ⟨(pseudonymize_preserves_structure "key" exGraphNoAgents).1,
    (pseudonymize_preserves_structure "key" exGraphNoAgents).2.2.2.2.2
      (by decide)⟩

/-- C6: pseudonymization is deterministic — any two Agent nodes with the same
(name, email) attribute values, in the same or in separate runs, receive the
same pseudonyms under the same key, regardless of their other attributes,
attribute order or identifiers. -/
theorem pseudonym_deterministic (key : String) (a b : Node)
    (ha : a.kind = NodeKind.agent) (hb : b.kind = NodeKind.agent)
    (hn : lookupAttr "name" a.attrs = lookupAttr "name" b.attrs)
    (he : lookupAttr "email" a.attrs = lookupAttr "email" b.attrs) :
    lookupAttr "name" (pseudonymizeNode key a).attrs
      = lookupAttr "name" (pseudonymizeNode key b).attrs
    ∧ lookupAttr "email" (pseudonymizeNode key a).attrs
      = lookupAttr "email" (pseudonymizeNode key b).attrs := by
  have hattrs : (pseudonymizeNode key a).attrs
      = pseudonymizeAttrs key ((lookupAttr "name" a.attrs).getD "")
        ((lookupAttr "email" a.attrs).getD "") a.attrs := by
    simp [pseudonymizeNode, ha]
  have hbttrs : (pseudonymizeNode key b).attrs
      = pseudonymizeAttrs key ((lookupAttr "name" b.attrs).getD "")
        ((lookupAttr "email" b.attrs).getD "") b.attrs := by
    simp [pseudonymizeNode, hb]
  constructor
  · rw [hattrs, hbttrs, lookupAttr_pseudonymizeAttrs_name, lookupAttr_pseudonymizeAttrs_name,
      hn, he]
  · rw [hattrs, hbttrs, lookupAttr_pseudonymizeAttrs_email, lookupAttr_pseudonymizeAttrs_email,
      hn, he]

/-- Witness for C6 at two concrete agent nodes from two different runs with
the same (name, email) pair but different identifiers and attribute order. -/
theorem pseudonym_deterministic_witness :
    (exAgentRunOne.kind = NodeKind.agent ∧ exAgentRunTwo.kind = NodeKind.agent
      ∧ lookupAttr "name" exAgentRunOne.attrs = lookupAttr "name" exAgentRunTwo.attrs
      ∧ lookupAttr "email" exAgentRunOne.attrs = lookupAttr "email" exAgentRunTwo.attrs)
    ∧ (lookupAttr "name" (pseudonymizeNode "key" exAgentRunOne).attrs
        = lookupAttr "name" (pseudonymizeNode "key" exAgentRunTwo).attrs
      ∧ lookupAttr "email" (pseudonymizeNode "key" exAgentRunOne).attrs
        = lookupAttr "email" (pseudonymizeNode "key" exAgentRunTwo).attrs) :=
  ⟨⟨by decide, by decide, by decide, by decide⟩,
    pseudonym_deterministic "key" exAgentRunOne exAgentRunTwo (by decide) (by decide)
      (by decide) (by decide)⟩

/-- C1: on every successful run, serialize applies the pipeline stages in
exactly the canonical order — build one subgraph per sub-model, combine,
dedupe, then (only if configured) double-agent resolution followed by a
second dedupe, then (only if configured) pseudonymization; each optional
stage is omitted entirely when disabled, occurs exactly once when enabled,
and pseudonymization never runs before double-agent resolution. -/
theorem serialize_stage_order (cmd : SerializeCmd) (key : Option String)
    (subgraphs : List Graph)
    (h : ∃ g, (serializeRun cmd key subgraphs).2 = Except.ok g) :
    (serializeRun cmd key subgraphs).1 = canonicalTrace cmd subgraphs.length := by
  obtain ⟨u, ps⟩ := cmd
  cases u with
  | none =>
    cases ps with
    | false => simp [serializeRun, canonicalTrace]
    | true =>
      cases key with
      | none =>
        obtain ⟨g, hg⟩ := h
        simp [serializeRun, pseudonymizeOp] at hg
      | some k => simp [serializeRun, canonicalTrace, pseudonymizeOp]
  | some policy =>
    rcases hr : uncover_double_agents (dedupe (combine subgraphs)) policy with e | g2
    · obtain ⟨g, hg⟩ := h
      simp [serializeRun, hr] at hg
    · cases ps with
      | false => simp [serializeRun, hr, canonicalTrace]
      | true =>
        cases key with
        | none =>
          obtain ⟨g, hg⟩ := h
          simp [serializeRun, hr, pseudonymizeOp] at hg
        | some k => simp [serializeRun, hr, canonicalTrace, pseudonymizeOp]

/-- Witness for C1 at a concrete run with both optional stages enabled. -/
theorem serialize_stage_order_witness :
    (∃ g, (serializeRun exCmdBoth (some "key") []).2 = Except.ok g)
    ∧ (serializeRun exCmdBoth (some "key") []).1 = canonicalTrace exCmdBoth 0 := by
  have hv : validPolicy "exact-email" = true := by decide
  have hok : ∃ g, (serializeRun exCmdBoth (some "key") ([] : List Graph)).2
      = Except.ok g := by
    simp [serializeRun, exCmdBoth, uncover_double_agents, hv, pseudonymizeOp]
  exact ⟨hok, serialize_stage_order _ _ _ hok⟩

/-- C7: when pseudonymization is requested and no pseudonymization key is
supplied, the run fails with a fatal error rather than silently falling back
to a non-deterministic key. -/
theorem pseudonymize_requires_key (cmd : SerializeCmd) (key : Option String)
    (subgraphs : List Graph) (hp : cmd.pseudonymize = true) (hk : key = none) :
    ∃ e, (serializeRun cmd key subgraphs).2 = Except.error e := by
  subst hk
  obtain ⟨u, ps⟩ := cmd
  cases ps with
  | false => simp at hp
  | true =>
    cases u with
    | none => simp [serializeRun, pseudonymizeOp]
    | some policy =>
      rcases hr : uncover_double_agents (dedupe (combine subgraphs)) policy with e | g2
      · simp [serializeRun, hr]
      · simp [serializeRun, hr, pseudonymizeOp]

/-- Witness for C7 at a concrete run requesting pseudonymization with no
key. -/
theorem pseudonymize_requires_key_witness :
    exCmdPseudo.pseudonymize = true
    ∧ ∃ e, (serializeRun exCmdPseudo none [exGraphSmall]).2 = Except.error e :=
  ⟨rfl, pseudonymize_requires_key exCmdPseudo none [exGraphSmall] rfl rfl⟩

/-- C8 counterexample: with an unknown double-agent match policy configured,
the run does fail, but only after sub-model building, combining and the
first deduplication have already executed — the recorded trace of the
failing run contains the build, combine and dedupe stages before the
double-agent resolution stage at which the error arises, refuting failure
at configuration time before any graph work. -/
theorem unknown_policy_after_graph_work_cex :
    (serializeRun exCmdBogus none [exGraphSmall]).1
      = [Stage.build 0, Stage.combineStage, Stage.dedupeStage, Stage.uncoverStage]
    ∧ ∃ e, (serializeRun exCmdBogus none [exGraphSmall]).2 = Except.error e := by
  have hv : validPolicy "bogus" = false := by decide
  have hr : uncover_double_agents (dedupe (combine [exGraphSmall])) "bogus"
      = Except.error ("unknown double agent match policy: " ++ "bogus") := by
    simp [uncover_double_agents, hv]
  constructor
  · simp [serializeRun, exCmdBogus, hr, List.range_succ]
  · simp [serializeRun, exCmdBogus, hr]

/-- C8 amended: an unknown double-agent match policy name makes the run fail
fatally, but the failure occurs at the double-agent resolution stage — after
sub-model building, combining and the first deduplication have run — and no
later stage executes. -/
theorem unknown_policy_fatal_at_resolution (cmd : SerializeCmd) (key : Option String)
    (subgraphs : List Graph) (policy : String)
    (hc : cmd.uncover_double_agents = some policy) (hv : validPolicy policy = false) :
    (serializeRun cmd key subgraphs).1
      = (List.range subgraphs.length).map Stage.build
        ++ [Stage.combineStage, Stage.dedupeStage, Stage.uncoverStage]
    ∧ ∃ e, (serializeRun cmd key subgraphs).2 = Except.error e := by
  have hr : uncover_double_agents (dedupe (combine subgraphs)) policy
      = Except.error ("unknown double agent match policy: " ++ policy) := by
    simp [uncover_double_agents, hv]
  obtain ⟨u, ps⟩ := cmd
  have hu : u = some policy := hc
  subst hu
  constructor <;> simp [serializeRun, hr]

/-- Witness for the amended C8 at a concrete unknown policy name. -/
theorem unknown_policy_fatal_at_resolution_witness :
    (exCmdBogusPseudo.uncover_double_agents = some "bogus" ∧ validPolicy "bogus" = false)
    ∧ ((serializeRun exCmdBogusPseudo (some "key") [exGraphSmall]).1
        = (List.range ([exGraphSmall] : List Graph).length).map Stage.build
          ++ [Stage.combineStage, Stage.dedupeStage, Stage.uncoverStage]
      ∧ ∃ e, (serializeRun exCmdBogusPseudo (some "key") [exGraphSmall]).2
          = Except.error e) :=
  ⟨⟨rfl, by decide⟩,
    unknown_policy_fatal_at_resolution exCmdBogusPseudo (some "key") [exGraphSmall]
      "bogus" rfl (by decide)⟩

theorem together_symm {x y : String} {cs : List (List String)} (h : together x y cs) :
    together y x cs := by
  obtain ⟨c, hc, hx, hy⟩ := h
  exact ⟨c, hc, hy, hx⟩

theorem together_addAgent (m : String → String → Bool) (a x y : String)
    (cs : List (List String)) (h : together x y cs) :
    together x y (addAgent m a cs) := by
  obtain ⟨c, hc, hx, hy⟩ := h
  by_cases hm : clusterMatches m a c = true
  · refine ⟨a :: (cs.filter (fun c => clusterMatches m a c)).flatten,
      List.mem_cons_self _ _, ?_, ?_⟩
    · exact List.mem_cons_of_mem _
        (List.mem_flatten_of_mem (List.mem_filter.mpr ⟨hc, hm⟩) hx)
    · exact List.mem_cons_of_mem _
        (List.mem_flatten_of_mem (List.mem_filter.mpr ⟨hc, hm⟩) hy)
  · refine ⟨c, ?_, hx, hy⟩
    exact List.mem_cons_of_mem _ (List.mem_filter.mpr ⟨hc, by simp [hm]⟩)

theorem together_buildClusters (m : String → String → Bool) (l : List String) :
    ∀ (x y : String) (cs : List (List String)), together x y cs →
      together x y (buildClusters m l cs) := by
  induction l with
  | nil => intro x y cs h; exact h
  | cons a rest ih =>
    intro x y cs h
    exact ih x y _ (together_addAgent m a x y cs h)

theorem mentioned_addAgent (m : String → String → Bool) (a x : String)
    (cs : List (List String)) (h : mentioned x cs) :
    mentioned x (addAgent m a cs) := by
  obtain ⟨c, hc, hx⟩ := h
  by_cases hm : clusterMatches m a c = true
  · exact ⟨_, List.mem_cons_self _ _, List.mem_cons_of_mem _
      (List.mem_flatten_of_mem (List.mem_filter.mpr ⟨hc, hm⟩) hx)⟩
  · exact ⟨c, List.mem_cons_of_mem _ (List.mem_filter.mpr ⟨hc, by simp [hm]⟩), hx⟩

theorem mentioned_self_addAgent (m : String → String → Bool) (a : String)
    (cs : List (List String)) : mentioned a (addAgent m a cs) :=
  ⟨_, List.mem_cons_self _ _, List.mem_cons_self _ _⟩

theorem mentioned_buildClusters_of (m : String → String → Bool) (l : List String) :
    ∀ (x : String) (cs : List (List String)), mentioned x cs →
      mentioned x (buildClusters m l cs) := by
  induction l with
  | nil => intro x cs h; exact h
  | cons a rest ih =>
    intro x cs h
    exact ih x _ (mentioned_addAgent m a x cs h)

theorem together_new_edge (m : String → String → Bool) (a x : String)
    (cs : List (List String)) (hx : mentioned x cs) (he : (m a x || m x a) = true) :
    together x a (addAgent m a cs) := by
  obtain ⟨c, hc, hxc⟩ := hx
  have hm : clusterMatches m a c = true := by
    unfold clusterMatches
    rw [List.any_eq_true]
    exact ⟨x, hxc, he⟩
  refine ⟨_, List.mem_cons_self _ _, ?_, List.mem_cons_self _ _⟩
  exact List.mem_cons_of_mem _ (List.mem_flatten_of_mem (List.mem_filter.mpr ⟨hc, hm⟩) hxc)

theorem together_of_edge_mentioned (m : String → String → Bool) (l : List String) :
    ∀ (x c : String) (cs : List (List String)), mentioned x cs → c ∈ l →
      (m c x || m x c) = true → together x c (buildClusters m l cs) := by
  induction l with
  | nil => intro x c cs _ hc _; cases hc
  | cons d rest ih =>
    intro x c cs hx hc he
    rcases List.mem_cons.mp hc with h | h
    · subst h
      exact together_buildClusters m rest x c _ (together_new_edge m c x cs hx he)
    · exact ih x c _ (mentioned_addAgent m d x cs hx) h he

theorem together_of_edge (m : String → String → Bool) (l : List String) :
    ∀ (a b : String) (cs : List (List String)), a ∈ l → b ∈ l →
      (m a b || m b a) = true → together a b (buildClusters m l cs) := by
  induction l with
  | nil => intro a b cs ha _ _; cases ha
  | cons d rest ih =>
    intro a b cs ha hb he
    rcases List.mem_cons.mp ha with h1 | h1
    · rcases List.mem_cons.mp hb with h2 | h2
      · rw [h1, h2]
        obtain ⟨c, hcb, hxb⟩ :=
          mentioned_buildClusters_of m rest d _ (mentioned_self_addAgent m d cs)
        exact ⟨c, hcb, hxb, hxb⟩
      · rw [h1]
        rw [h1] at he
        have hx : mentioned d (addAgent m d cs) := mentioned_self_addAgent m d cs
        apply together_of_edge_mentioned m rest d b _ hx h2
        rw [Bool.or_comm] at he
        exact he
    · rcases List.mem_cons.mp hb with h2 | h2
      · rw [h2]
        rw [h2] at he
        have hx : mentioned d (addAgent m d cs) := mentioned_self_addAgent m d cs
        exact together_symm (together_of_edge_mentioned m rest d a _ hx h1 he)
      · exact ih a b _ h1 h2 he

theorem Disj_symm {c d : List String} (h : Disj c d) : Disj d c :=
  fun x hxd hxc => h x hxc hxd

theorem mentioned_addAgent_sub (m : String → String → Bool) (a x : String)
    (cs : List (List String)) (h : mentioned x (addAgent m a cs)) :
    x = a ∨ mentioned x cs := by
  obtain ⟨c, hc, hx⟩ := h
  rcases List.mem_cons.mp hc with h1 | h1
  · subst h1
    rcases List.mem_cons.mp hx with h2 | h2
    · exact Or.inl h2
    · rw [List.mem_flatten] at h2
      obtain ⟨c0, hc0, hxc0⟩ := h2
      exact Or.inr ⟨c0, List.mem_of_mem_filter hc0, hxc0⟩
  · exact Or.inr ⟨c, List.mem_of_mem_filter h1, hx⟩

theorem pairwise_disj_addAgent (m : String → String → Bool) (a : String)
    (cs : List (List String)) (hp : cs.Pairwise Disj) (ha : ¬ mentioned a cs) :
    (addAgent m a cs).Pairwise Disj := by
  unfold addAgent
  rw [List.pairwise_cons]
  constructor
  · intro d hd x hx
    rcases List.mem_cons.mp hx with h | h
    · subst h
      intro hxd
      exact ha ⟨d, List.mem_of_mem_filter hd, hxd⟩
    · rw [List.mem_flatten] at h
      obtain ⟨c, hcm, hxc⟩ := h
      have hc1 : c ∈ cs := List.mem_of_mem_filter hcm
      have hcmatch : clusterMatches m a c = true := List.of_mem_filter hcm
      have hd1 : d ∈ cs := List.mem_of_mem_filter hd
      have hdmatch : ¬ clusterMatches m a d = true := by
        have := List.of_mem_filter hd
        simpa using this
      have hcd : c ≠ d := fun hcd => hdmatch (hcd ▸ hcmatch)
      exact (hp.forall (fun c d h => Disj_symm h) hc1 hd1 hcd) x hxc
  · exact List.Pairwise.sublist (List.filter_sublist _) hp

theorem buildClusters_pairwise_disj (m : String → String → Bool) (l : List String) :
    ∀ (cs : List (List String)), l.Nodup → cs.Pairwise Disj →
      (∀ x, mentioned x cs → x ∉ l) → (buildClusters m l cs).Pairwise Disj := by
  induction l with
  | nil => intro cs _ hp _; exact hp
  | cons a rest ih =>
    intro cs hnd hp hfresh
    have hna : ¬ mentioned a cs := fun h => hfresh a h (List.mem_cons_self _ _)
    apply ih
    · exact (List.nodup_cons.mp hnd).2
    · exact pairwise_disj_addAgent m a cs hp hna
    · intro x hx hxrest
      rcases mentioned_addAgent_sub m a x cs hx with h | h
      · subst h
        exact (List.nodup_cons.mp hnd).1 hxrest
      · exact hfresh x h (List.mem_cons_of_mem _ hxrest)

theorem cluster_unique {cs : List (List String)} (hp : cs.Pairwise Disj)
    {d e : List String} {x : String} (h1 : d ∈ cs) (h2 : e ∈ cs)
    (hx1 : x ∈ d) (hx2 : x ∈ e) : d = e := by
  by_contra hne
  exact (hp.forall (fun c d h => Disj_symm h) h1 h2 hne) x hx1 hx2

theorem find?_cluster (cs : List (List String)) :
    ∀ (d : List String) (x : String), cs.Pairwise Disj → d ∈ cs → x ∈ d →
      cs.find? (fun c => decide (x ∈ c)) = some d := by
  induction cs with
  | nil => intro d x _ hd _; cases hd
  | cons e rest ih =>
    intro d x hp hd hx
    by_cases hxe : x ∈ e
    · have hde : d = e := cluster_unique hp hd (List.mem_cons_self _ _) hx hxe
      rw [List.find?_cons_of_pos]
      · rw [hde]
      · simpa using hxe
    · have hde : ¬ d = e := fun h => hxe (h ▸ hx)
      have hd2 : d ∈ rest := by
        rcases List.mem_cons.mp hd with h | h
        · exact absurd h hde
        · exact h
      rw [List.find?_cons_of_neg]
      · exact ih d x (List.pairwise_cons.mp hp).2 hd2 hx
      · simpa using hxe

/-- C9: double-agent resolution computes the transitive closure of the
pairwise match policy — if agents a and c each match a third agent b under
the pairwise match function, the clustering places a and c in one common
cluster (hence they are assigned the same canonical agent), even when a and
c do not directly match. -/
theorem double_agents_transitive_closure (m : String → String → Bool)
    (agents : List String) (a b c : String) (hnd : agents.Nodup)
    (ha : a ∈ agents) (hb : b ∈ agents) (hc : c ∈ agents)
    (hab : m a b = true) (hbc : m b c = true) :
    ∃ cl ∈ buildClusters m agents [], a ∈ cl ∧ c ∈ cl ∧
      canonicalOf (buildClusters m agents []) a
        = canonicalOf (buildClusters m agents []) c := by
  have hp : (buildClusters m agents []).Pairwise Disj := by
    apply buildClusters_pairwise_disj m agents [] hnd
    · exact List.Pairwise.nil
    · intro x hx
      obtain ⟨c0, hc0, _⟩ := hx
      cases hc0
  have t1 : together a b (buildClusters m agents []) :=
    together_of_edge m agents a b [] ha hb (by simp [hab])
  have t2 : together b c (buildClusters m agents []) :=
    together_of_edge m agents b c [] hb hc (by simp [hbc])
  obtain ⟨d1, hd1, had, hbd⟩ := t1
  obtain ⟨d2, hd2, hbd2, hcd⟩ := t2
  have hdd : d1 = d2 := cluster_unique hp hd1 hd2 hbd hbd2
  rw [← hdd] at hcd
  have e1 : canonicalOf (buildClusters m agents []) a = minOf d1 := by
    unfold canonicalOf
    rw [find?_cluster _ d1 a hp hd1 had]
  have e2 : canonicalOf (buildClusters m agents []) c = minOf d1 := by
    unfold canonicalOf
    rw [find?_cluster _ d1 c hp hd1 hcd]
  exact ⟨d1, hd1, had, hcd, by rw [e1, e2]⟩

/-- Witness for C9: alice matches bob and bob matches carol, while alice and
carol do not directly match; alice and carol nonetheless share one cluster
and one canonical agent. -/
theorem double_agents_transitive_closure_witness :
    (["alice", "bob", "carol"].Nodup
      ∧ exMatch "alice" "bob" = true ∧ exMatch "bob" "carol" = true
      ∧ exMatch "alice" "carol" = false)
    ∧ (∃ cl ∈ buildClusters exMatch ["alice", "bob", "carol"] [],
        "alice" ∈ cl ∧ "carol" ∈ cl ∧
        canonicalOf (buildClusters exMatch ["alice", "bob", "carol"] []) "alice"
          = canonicalOf (buildClusters exMatch ["alice", "bob", "carol"] []) "carol") :=
  ⟨⟨by decide, by decide, by decide, by decide⟩,
    double_agents_transitive_closure exMatch ["alice", "bob", "carol"]
      "alice" "bob" "carol" (by decide) (by decide) (by decide) (by decide)
      (by decide) (by decide)⟩

theorem foldl_push_document {α : Type} (l : List α) :
    ∀ (m : ProvModel α), (l.foldl ProvModel.push m).document
      = { kind := m.kind, project_id := m.project_id, resources := m.pushed ++ l } := by
  induction l with
  | nil => intro m; simp [ProvModel.document]
  | cons r rest ih =>
    intro m
    rw [List.foldl_cons, ih]
    simp [ProvModel.push]

/-- C10: for each of the four pipelines, create_model constructs a fresh
model on every call and pushes the given resources in list order, so the
returned document is fully determined by the pipeline's project_id and the
resource list — hence two calls with the same project_id and resources yield
equal documents (whatever the client and whatever happened before), and no
state carries over between calls. -/
theorem create_model_fresh_and_ordered :
    (∀ (p : CommitPipeline) (rs : List CommitModelPackage),
      p.create_model rs
        = { kind := ModelKind.commitModel, project_id := p.project_id, resources := rs })
    ∧ (∀ (p : CommitResourcePipeline) (rs : List ResourceModelPackage),
      p.create_model rs
        = { kind := ModelKind.commitResourceModel, project_id := p.project_id, resources := rs })
    ∧ (∀ (p : IssueResourcePipeline) (rs : List ResourceModelPackage),
      p.create_model rs
        = { kind := ModelKind.resourceModel, project_id := p.project_id, resources := rs })
    ∧ (∀ (p : MergeRequestResourcePipeline) (rs : List ResourceModelPackage),
      p.create_model rs
        = { kind := ModelKind.resourceModel, project_id := p.project_id, resources := rs }) := by
  refine ⟨?_, ?_, ?_, ?_⟩
  · intro p rs
    unfold CommitPipeline.create_model
    rw [foldl_push_document]
    simp [mkProvModel]
  · intro p rs
    unfold CommitResourcePipeline.create_model
    rw [foldl_push_document]
    simp [mkProvModel]
  · intro p rs
    unfold IssueResourcePipeline.create_model
    rw [foldl_push_document]
    simp [mkProvModel]
  · intro p rs
    unfold MergeRequestResourcePipeline.create_model
    rw [foldl_push_document]
    simp [mkProvModel]

end Gitcollab2Prov
